import Mathlib

/-!
Shallow embedding of the poke-house/Erros-Delivery application
(src/App.tsx, src/components/ResultsTable.tsx, the UploadZone and types
modules bundled with it, and the Gemini extraction service) together with
proofs of the specification claims about it.

Conventions of the embedding:
* A browser `File` is modelled by its two observable attributes used by the
  code: `name` and `type` (the media type).
* The external extraction call (`extractOrdersFromPdf`) is a parameter
  `extract : File → Except String (List OrderError)`: `Except.error`
  models a rejected promise, `Except.ok` a resolved one.
* TypeScript string-union fields (`platform`, `status`) are embedded as the
  runtime values they have: `platform` as `String`, `status` as the
  three-constructor enum of the source `types.ts`.
* JavaScript `Record<string, _>` objects preserve string-key insertion
  order; they are embedded as association lists with unique keys, updates
  in place and inserts at the end.
* `Array.prototype.sort` (stable) is embedded as `List.mergeSort`;
  `String.prototype.localeCompare` between two platform names is embedded
  as Unicode order `≤` on `String` (the platform union admits a single
  non-priority value, `"Unknown"`, so the tie-break branch never compares
  two distinct non-priority names in practice).
-/

/-- Source `types.ts`: `OrderError` (the record of one extracted order). -/
structure OrderError where
  orderNumber : String
  restaurantName : String
  date : String
  time : String
  customerName : String
  platform : String
deriving DecidableEq, Repr

/-- Source `types.ts`: the status union of `ExtractedFileResult`. -/
inductive FileStatus where
  | processing
  | success
  | error
deriving DecidableEq, Repr

/-- Source `types.ts`: `ExtractedFileResult` (one outcome per uploaded file). -/
structure ExtractedFileResult where
  fileName : String
  status : FileStatus
  orders : List OrderError
  errorMessage : Option String := none
deriving DecidableEq, Repr

/-- Source `types.ts`: `ProcessingStatus` enum. -/
inductive ProcessingStatus where
  | IDLE
  | PROCESSING
  | COMPLETED
deriving DecidableEq, Repr

/-- A browser `File`, reduced to the attributes the code reads. -/
structure BrowserFile where
  name : String
  type : String
deriving DecidableEq, Repr

/-- The React state of `App.tsx`: `status`, `results`, `progress`. -/
structure AppState where
  status : ProcessingStatus
  results : List ExtractedFileResult
  progress : String
deriving DecidableEq, Repr

/-- The progress string built in the loop of `handleFilesSelected`. -/
def progressMsg (i n : Nat) (name : String) : String :=
  "Analisando arquivo " ++ toString (i + 1) ++ " de " ++ toString n ++ ": "
    ++ name ++ "..."

/-- One iteration of the `try/catch` body of `handleFilesSelected`:
the outcome pushed onto `newResults` for one file. -/
def processFile (extract : BrowserFile → Except String (List OrderError))
    (file : BrowserFile) : ExtractedFileResult :=
  match extract file with
  | Except.ok orders =>
      { fileName := file.name, status := FileStatus.success, orders := orders }
  | Except.error _ =>
      { fileName := file.name, status := FileStatus.error, orders := [],
        errorMessage := some "Falha ao processar PDF" }

/-- The `newResults` accumulated by the `for` loop of `handleFilesSelected`:
each iteration appends exactly one outcome, whether the extraction call
resolved or rejected. -/
def processFiles (extract : BrowserFile → Except String (List OrderError))
    (files : List BrowserFile) : List ExtractedFileResult :=
  files.foldl (fun acc file => acc ++ [processFile extract file]) []

/-- The sequence of states `handleFilesSelected` moves the app through:
`setStatus(PROCESSING)`, `setResults([])`, one `setProgress` per file,
then `setResults(newResults)`, `setStatus(COMPLETED)`, `setProgress("")`. -/
def batchTrace (extract : BrowserFile → Except String (List OrderError))
    (files : List BrowserFile) (s0 : AppState) : List AppState :=
  let s1 := { s0 with status := ProcessingStatus.PROCESSING }
  let s2 := { s1 with results := [] }
  let loopStates := files.enum.map
    (fun p => { s2 with progress := progressMsg p.1 files.length p.2.name })
  let sl := loopStates.getLast?.getD s2
  let s3 := { sl with results := processFiles extract files }
  let s4 := { s3 with status := ProcessingStatus.COMPLETED }
  let s5 := { s4 with progress := "" }
  [s1, s2] ++ loopStates ++ [s3, s4, s5]

/-- The app state when `handleFilesSelected` returns (the last state of
`batchTrace`). -/
def runBatch (extract : BrowserFile → Except String (List OrderError))
    (files : List BrowserFile) (s0 : AppState) : AppState :=
  (batchTrace extract files s0).getLast?.getD s0

theorem processFiles_eq_map
    (extract : BrowserFile → Except String (List OrderError)) :
    ∀ (files : List BrowserFile) (init : List ExtractedFileResult),
      files.foldl (fun acc file => acc ++ [processFile extract file]) init
        = init ++ files.map (processFile extract) := by
  intro files
  induction files with
  | nil => intro init; simp
  | cons f fs ih =>
      intro init
      simp only [List.foldl_cons, List.map_cons]
      rw [ih]
      simp

theorem processFiles_map
    (extract : BrowserFile → Except String (List OrderError))
    (files : List BrowserFile) :
    processFiles extract files = files.map (processFile extract) := by
  unfold processFiles
  rw [processFiles_eq_map]
  simp

theorem processFiles_length
    (extract : BrowserFile → Except String (List OrderError))
    (files : List BrowserFile) :
    (processFiles extract files).length = files.length := by
  rw [processFiles_map]; simp

theorem runBatch_eq (extract : BrowserFile → Except String (List OrderError))
    (files : List BrowserFile) (s0 : AppState) :
    runBatch extract files s0 =
      { status := ProcessingStatus.COMPLETED,
        results := processFiles extract files,
        progress := "" } := by
  have h : ∀ (l : List AppState) (a b c : AppState),
      (l ++ [a, b, c]).getLast? = some c := by
    intro l a b c
    have hsplit : l ++ [a, b, c] = (l ++ [a, b]) ++ [c] := by simp
    rw [hsplit, List.getLast?_concat]
  unfold runBatch batchTrace
  simp only [← List.append_assoc]
  rw [h]
  rfl

/-- An order record as produced inside `allOrders`: the spread of an
`OrderError` plus the `sourceFile` tag. -/
structure TaggedOrder extends OrderError where
  sourceFile : String
deriving DecidableEq, Repr

/-- Embeds `ResultsTable.tsx` `allOrders`: flatten every outcome's orders, tagging
each with its source file name (guarded by the `results.length === 0`
early return). -/
def allOrders (results : List ExtractedFileResult) : List TaggedOrder :=
  if results.length = 0 then []
  else results.flatMap (fun r =>
    r.orders.map (fun o => { toOrderError := o, sourceFile := r.fileName }))

/-- Insertion-order deduplication, the observable behavior of
`Array.from(new Set(xs))` on strings: keep the first occurrence of each
element. -/
def dedupFirst : List String → List String
  | [] => []
  | x :: xs => x :: dedupFirst (xs.filter (fun y => !(y == x)))
termination_by l => l.length
decreasing_by
  simp only [List.length_cons]
  exact Nat.lt_succ_of_le (List.length_filter_le _ _)

/-- Embeds `ResultsTable.tsx` `uniqueRestaurants`: distinct restaurant names,
sorted. -/
def uniqueRestaurants (orders : List TaggedOrder) : List String :=
  (dedupFirst (orders.map (fun o => o.restaurantName))).mergeSort
    (fun a b => decide (a ≤ b))

/-- Embeds `ResultsTable.tsx` `filteredOrders`: the restaurant filter. -/
def filteredOrders (sel : List String) (orders : List TaggedOrder) :
    List TaggedOrder :=
  if sel.length = 0 then orders
  else orders.filter (fun o => sel.contains o.restaurantName)

/-- The fixed `priority` array of `summaryStats`. -/
def platformPriority : List String := ["Uber Eats", "Glovo", "Bolt"]

/-- The platform sort comparator of `summaryStats`, as a `≤`-style Boolean
relation: priority platforms by priority index, priority before
non-priority, two non-priority platforms by string order (embedding
`localeCompare`). -/
def platLe (a b : String) : Bool :=
  match platformPriority.indexOf? a, platformPriority.indexOf? b with
  | some i, some j => decide (i ≤ j)
  | some _, none => true
  | none, some _ => false
  | none, none => decide (a ≤ b)

/-- Embeds the `summaryStats` platform pass: `detectedPlatforms`
(a `Set` filled in record order) sorted with the priority comparator. -/
def sortedPlatforms (orders : List TaggedOrder) : List String :=
  (dedupFirst (orders.map (fun o => o.platform))).mergeSort platLe

/-- Embeds `restaurantsToTrack` of `summaryStats`. The source computes it but
never reads it afterwards (dead code); it is embedded for fidelity. -/
def restaurantsToTrack (sel : List String) (unique : List String) :
    List String :=
  if sel.length > 0 then sel else unique

/-- One row of the crosstab: per-platform counts plus the `total` field. -/
structure RestaurantStats where
  counts : List (String × Nat)
  total : Nat
deriving DecidableEq, Repr

/-- Embeds `if (stats[rest][plat] === undefined) stats[rest][plat] = 0;
stats[rest][plat]++` on an insertion-ordered string-keyed object. -/
def bump : List (String × Nat) → String → List (String × Nat)
  | [], k => [(k, 1)]
  | (k2, v) :: rest, k =>
      if k2 = k then (k2, v + 1) :: rest else (k2, v) :: bump rest k

/-- The fresh row `{ total: 0 }` after `sortedPlatforms.forEach(p =>
stats[rest][p] = 0)`. -/
def initRow (plats : List String) : RestaurantStats :=
  { counts := plats.map (fun p => (p, 0)), total := 0 }

/-- Key-membership test on an insertion-ordered object. -/
def hasKey {β : Type} (m : List (String × β)) (k : String) : Bool :=
  m.any (fun p => p.1 == k)

/-- In-place update of the entry at key `k` (JS object property write on an
existing key keeps its position). -/
def modifyRow {β : Type} : List (String × β) → String → (β → β) →
    List (String × β)
  | [], _, _ => []
  | (k2, v) :: rest, k, f =>
      if k2 = k then (k2, f v) :: rest else (k2, v) :: modifyRow rest k f

/-- The body of the `filteredOrders.forEach(order => ...)` populate pass of
`summaryStats`: create the row on first sight of a restaurant, then
increment its platform counter and its total. -/
def addOrder (plats : List String) (stats : List (String × RestaurantStats))
    (o : TaggedOrder) : List (String × RestaurantStats) :=
  let stats :=
    if hasKey stats o.restaurantName then stats
    else stats ++ [(o.restaurantName, initRow plats)]
  modifyRow stats o.restaurantName
    (fun r => { counts := bump r.counts o.platform, total := r.total + 1 })

/-- The `stats` object of `summaryStats` built from a record list. -/
def summaryStatsTable (plats : List String) (orders : List TaggedOrder) :
    List (String × RestaurantStats) :=
  orders.foldl (addOrder plats) []

/-- Embeds `ResultsTable.tsx` `summaryStats`: the crosstab rows and the ordered
platform list for the current view. -/
def summaryStats (sel : List String) (results : List ExtractedFileResult) :
    List (String × RestaurantStats) × List String :=
  let fo := filteredOrders sel (allOrders results)
  let plats := sortedPlatforms fo
  (summaryStatsTable plats fo, plats)

/-- What an upload handler does: start a batch with some files, show an
alert, or nothing. -/
inductive UploadAction where
  | startBatch (files : List BrowserFile)
  | alertMsg (msg : String)
  | noAction
deriving DecidableEq, Repr

/-- The media-type test `file.type === 'application/pdf'` of
`UploadZone`. -/
def isPdfFile (f : BrowserFile) : Bool :=
  f.type == "application/pdf"

/-- Embeds `UploadZone` `handleFileInput`: when the dialog returned at least one
file, filter to PDFs and invoke `onFilesSelected` with the survivors —
even when none survive. -/
def handleFileInput (files : List BrowserFile) : UploadAction :=
  if files.length > 0 then UploadAction.startBatch (files.filter isPdfFile)
  else UploadAction.noAction

/-- Embeds `UploadZone` `handleDrop`: ignore drops while processing; otherwise
filter to PDFs, start a batch when at least one survives, else alert. -/
def handleDrop (isProcessing : Bool) (files : List BrowserFile) :
    UploadAction :=
  if isProcessing then UploadAction.noAction
  else if files.length > 0 then
    let validFiles := files.filter isPdfFile
    if validFiles.length > 0 then UploadAction.startBatch validFiles
    else UploadAction.alertMsg "Por favor, envie apenas arquivos PDF."
  else UploadAction.noAction

/-- The fields of `process.env` read by the extraction service. -/
structure ProcessEnv where
  apiKey : Option String
deriving DecidableEq, Repr

/-- JS falsiness of `process.env.API_KEY`: absent, or the empty string. -/
def isFalsyKey : Option String → Bool
  | none => true
  | some s => s == ""

/-- Embeds `geminiService` `extractOrdersFromPdf`: guard on the credential, then
perform the external exchange. Everything past the guard (base64
encoding, the model request, response parsing) crosses the service
boundary and is embedded as the oracle `serviceCall`; the `catch` block
rethrows, so it adds nothing observable. -/
def extractOrdersFromPdf (env : ProcessEnv)
    (serviceCall : BrowserFile → Except String (List OrderError))
    (file : BrowserFile) : Except String (List OrderError) :=
  if isFalsyKey env.apiKey then
    Except.error "API Key is missing in environment variables."
  else serviceCall file

/-! Sample data used by witnesses and counterexamples. -/

/-- A PDF file whose extraction will be made to fail in samples. -/
def sampleFileA : BrowserFile :=
  { name := "a.pdf", type := "application/pdf" }

/-- A PDF file whose extraction will succeed in samples. -/
def sampleFileB : BrowserFile :=
  { name := "b.pdf", type := "application/pdf" }

/-- A non-PDF file (wrong media type). -/
def sampleFileTxt : BrowserFile :=
  { name := "notes.txt", type := "text/plain" }

/-- A sample extracted order record. -/
def sampleOrder : OrderError :=
  { orderNumber := "2E955", restaurantName := "Almada Fórum",
    date := "2026-01-14", time := "12:30", customerName := "N/A",
    platform := "Glovo" }

/-- A sample extraction service: rejects for `a.pdf`, resolves with one
order otherwise. -/
def sampleExtract (f : BrowserFile) : Except String (List OrderError) :=
  if f.name == "a.pdf" then Except.error "network failure"
  else Except.ok [sampleOrder]

/-- A sample app state left over from a previous completed batch. -/
def prevState : AppState :=
  { status := ProcessingStatus.COMPLETED,
    results := [{ fileName := "old.pdf", status := FileStatus.success,
                  orders := [sampleOrder] }],
    progress := "" }

/-- C1: for every batch of N accepted input files, the batch handler
reaches phase completed with one outcome per accepted file, and outcome
`i` is the processing result of input file `i` (input order preserved). -/
theorem claim1_batch_completed_one_outcome_per_file
    (extract : BrowserFile → Except String (List OrderError))
    (files : List BrowserFile) (s0 : AppState) :
    (runBatch extract files s0).status = ProcessingStatus.COMPLETED ∧
    (runBatch extract files s0).results.length = files.length ∧
    ∀ i : Nat,
      (runBatch extract files s0).results[i]?
        = (files[i]?).map (processFile extract) := by
  rw [runBatch_eq]
  refine ⟨rfl, by simpa using processFiles_length extract files, ?_⟩
  intro i
  simp only [processFiles_map]
  exact List.getElem?_map (processFile extract) files i

/-- C2: a file whose extraction call fails contributes the outcome
`{fileName, error, [], fixed generic message}`, and the handler still
processes every file of the batch (the whole result list is the per-file
processing of the whole input list, so no failure aborts the loop). -/
theorem claim2_failure_isolated
    (extract : BrowserFile → Except String (List OrderError))
    (files : List BrowserFile) (i : Nat) (f : BrowserFile) (e : String)
    (hi : files[i]? = some f) (hfail : extract f = Except.error e) :
    (processFiles extract files)[i]? = some
      { fileName := f.name, status := FileStatus.error, orders := [],
        errorMessage := some "Falha ao processar PDF" } ∧
    processFiles extract files = files.map (processFile extract) := by
  refine ⟨?_, processFiles_map extract files⟩
  rw [processFiles_map, List.getElem?_map, hi]
  simp [processFile, hfail]

theorem claim2_witness :
    (processFiles sampleExtract [sampleFileA, sampleFileB])[0]? = some
      { fileName := "a.pdf", status := FileStatus.error, orders := [],
        errorMessage := some "Falha ao processar PDF" } ∧
    processFiles sampleExtract [sampleFileA, sampleFileB]
      = [sampleFileA, sampleFileB].map (processFile sampleExtract) :=
  claim2_failure_isolated sampleExtract [sampleFileA, sampleFileB] 0
    sampleFileA "network failure" rfl rfl

/-- C9: with the API credential absent from the process environment, every
extraction call fails deterministically with the labeled message, and the
batch handler converts that failure into a per-file error outcome for
whichever file triggers it. -/
theorem claim9_missing_credential
    (env : ProcessEnv)
    (serviceCall : BrowserFile → Except String (List OrderError))
    (file : BrowserFile) (files : List BrowserFile)
    (h : env.apiKey = none) :
    extractOrdersFromPdf env serviceCall file
      = Except.error "API Key is missing in environment variables." ∧
    processFile (extractOrdersFromPdf env serviceCall) file
      = { fileName := file.name, status := FileStatus.error, orders := [],
          errorMessage := some "Falha ao processar PDF" } ∧
    processFiles (extractOrdersFromPdf env serviceCall) files
      = files.map (fun g =>
          { fileName := g.name, status := FileStatus.error, orders := [],
            errorMessage := some "Falha ao processar PDF" }) := by
  have hx : ∀ g : BrowserFile, extractOrdersFromPdf env serviceCall g
      = Except.error "API Key is missing in environment variables." := by
    intro g
    simp [extractOrdersFromPdf, isFalsyKey, h]
  refine ⟨hx file, ?_, ?_⟩
  · simp [processFile, hx file]
  · rw [processFiles_map]
    apply List.map_congr_left
    intro g _
    simp [processFile, hx g]

theorem claim9_witness :
    ({ apiKey := none } : ProcessEnv).apiKey = none ∧
    extractOrdersFromPdf { apiKey := none } sampleExtract sampleFileB
      = Except.error "API Key is missing in environment variables." ∧
    processFile (extractOrdersFromPdf { apiKey := none } sampleExtract)
        sampleFileB
      = { fileName := "b.pdf", status := FileStatus.error, orders := [],
          errorMessage := some "Falha ao processar PDF" } ∧
    processFiles (extractOrdersFromPdf { apiKey := none } sampleExtract)
        [sampleFileA, sampleFileB]
      = [sampleFileA, sampleFileB].map (fun g =>
          { fileName := g.name, status := FileStatus.error, orders := [],
            errorMessage := some "Falha ao processar PDF" }) := by
  refine ⟨rfl, ?_⟩
  exact claim9_missing_credential { apiKey := none } sampleExtract
    sampleFileB [sampleFileA, sampleFileB] rfl

/-- C10: when the user picks only non-PDF files through the file dialog,
`handleFileInput` still starts a batch with the empty file list (no
rejection notice), and that zero-file batch completes with zero outcomes;
the drop path instead shows the rejection alert and starts no batch. -/
theorem claim10_dialog_empty_batch_vs_drop_alert
    (files : List BrowserFile)
    (extract : BrowserFile → Except String (List OrderError))
    (s0 : AppState)
    (hne : files.length > 0)
    (hnopdf : files.all (fun f => !(isPdfFile f)) = true) :
    handleFileInput files = UploadAction.startBatch [] ∧
    handleDrop false files
      = UploadAction.alertMsg "Por favor, envie apenas arquivos PDF." ∧
    runBatch extract [] s0
      = { status := ProcessingStatus.COMPLETED, results := [],
          progress := "" } := by
  have hfilter : files.filter isPdfFile = [] := by
    rw [List.filter_eq_nil_iff]
    intro f hf
    have := (List.all_eq_true.mp hnopdf) f hf
    simpa using this
  refine ⟨?_, ?_, ?_⟩
  · simp [handleFileInput, hne, hfilter]
  · simp [handleDrop, hne, hfilter]
  · rw [runBatch_eq]
    simp [processFiles]

theorem claim10_witness :
    ([sampleFileTxt].length > 0) ∧
    ([sampleFileTxt].all (fun f => !(isPdfFile f)) = true) ∧
    handleFileInput [sampleFileTxt] = UploadAction.startBatch [] ∧
    handleDrop false [sampleFileTxt]
      = UploadAction.alertMsg "Por favor, envie apenas arquivos PDF." ∧
    runBatch sampleExtract [] prevState
      = { status := ProcessingStatus.COMPLETED, results := [],
          progress := "" } := by
  refine ⟨by decide, by decide, ?_⟩
  exact claim10_dialog_empty_batch_vs_drop_alert [sampleFileTxt]
    sampleExtract prevState (by decide) (by decide)

/-- C8 counterexample: starting a new batch from a completed previous
state, the handler's first state already has phase processing (still
holding the previous non-empty outcomes), and no state of the batch trace
ever has phase idle — the phase does not return to idle, and outcomes are
not cleared before the processing phase begins. -/
theorem claim8_counterexample :
    ((batchTrace sampleExtract [sampleFileA] prevState).all
      (fun s => s.status != ProcessingStatus.IDLE)) = true ∧
    (batchTrace sampleExtract [sampleFileA] prevState).head?
      = some { status := ProcessingStatus.PROCESSING,
               results := [{ fileName := "old.pdf",
                             status := FileStatus.success,
                             orders := [sampleOrder] }],
               progress := "" } ∧
    prevState.results.isEmpty = false := by
  refine ⟨by decide, by decide, by decide⟩

/-- C8 (amended): at the start of every new batch the handler first sets
the phase to processing (that first state still holds the previous
outcomes), clears the outcomes immediately afterwards — before any file is
processed, outcomes staying empty through the whole loop — and the phase
never returns to idle: every state of the batch trace has phase processing
or completed. -/
theorem claim8_batch_start_reset
    (extract : BrowserFile → Except String (List OrderError))
    (files : List BrowserFile) (s0 : AppState) :
    (batchTrace extract files s0).head?
      = some { s0 with status := ProcessingStatus.PROCESSING } ∧
    (batchTrace extract files s0)[1]?
      = some { s0 with
          status := ProcessingStatus.PROCESSING,
          results := [] } ∧
    (((batchTrace extract files s0).drop 1).take (1 + files.length)).all
      (fun s => s.results.isEmpty) = true ∧
    (batchTrace extract files s0).all
      (fun s => s.status == ProcessingStatus.PROCESSING
        || s.status == ProcessingStatus.COMPLETED) = true := by
  refine ⟨rfl, ?_, ?_, ?_⟩
  · unfold batchTrace
    simp only [List.cons_append, List.nil_append, List.getElem?_cons_succ,
      List.getElem?_cons_zero]
  · unfold batchTrace
    simp only [List.cons_append, List.nil_append, List.drop_succ_cons,
      List.drop_zero, Nat.add_comm 1 files.length, List.take_succ_cons]
    rw [List.take_left']
    · rw [List.all_cons]
      refine (Bool.and_eq_true _ _).mpr ⟨rfl, ?_⟩
      rw [List.all_eq_true]
      intro x hx
      rcases List.mem_map.mp hx with ⟨p, _, hpx⟩
      rw [← hpx]
      rfl
    · simp
  · rw [List.all_eq_true]
    intro x hx
    unfold batchTrace at hx
    have hsl : ((files.enum.map (fun p =>
        ({ status := ProcessingStatus.PROCESSING, results := [],
           progress := progressMsg p.1 files.length p.2.name } : AppState))
          ).getLast?.getD
        { status := ProcessingStatus.PROCESSING, results := [],
          progress := s0.progress }).status
        = ProcessingStatus.PROCESSING := by
      cases h : (files.enum.map (fun p =>
          ({ status := ProcessingStatus.PROCESSING, results := [],
             progress := progressMsg p.1 files.length p.2.name } : AppState))
            ).getLast? with
      | none => simp [h]
      | some y =>
          have hy := List.mem_of_mem_getLast? h
          rcases List.mem_map.mp hy with ⟨p, _, hpy⟩
          simp [h, ← hpy]
    simp only [List.cons_append, List.nil_append, List.mem_cons,
      List.mem_append, List.mem_map, List.mem_singleton,
      List.not_mem_nil, or_false] at hx
    rcases hx with rfl | rfl | ⟨p, _, rfl⟩ | rfl | rfl | rfl
    · rfl
    · rfl
    · rfl
    · simpa using congrArg
        (fun st => (st == ProcessingStatus.PROCESSING
          || st == ProcessingStatus.COMPLETED)) hsl
    · rfl
    · rfl

/-- C3: with an empty selection the filter is the identity; with a
non-empty selection it keeps exactly the records whose restaurant is
selected, preserving order (the result is a sublist of the input). -/
theorem claim3_filteredOrders_spec (sel : List String)
    (orders : List TaggedOrder) :
    filteredOrders sel orders =
      (if sel = [] then orders
       else orders.filter (fun o => sel.contains o.restaurantName)) ∧
    (filteredOrders sel orders).Sublist orders ∧
    ∀ o : TaggedOrder,
      o ∈ filteredOrders sel orders ↔
        (o ∈ orders ∧ (sel = [] ∨ sel.contains o.restaurantName = true)) := by
  cases sel with
  | nil =>
      refine ⟨by simp [filteredOrders], by simp [filteredOrders], ?_⟩
      intro o
      simp [filteredOrders]
  | cons s ss =>
      refine ⟨by simp [filteredOrders], ?_, ?_⟩
      · have h : filteredOrders (s :: ss) orders
            = orders.filter (fun o => (s :: ss).contains o.restaurantName) := by
          simp [filteredOrders]
        rw [h]
        exact List.filter_sublist orders
      · intro o
        simp [filteredOrders, List.mem_filter]

theorem allOrders_eq_flatMap (results : List ExtractedFileResult) :
    allOrders results = results.flatMap (fun r =>
      r.orders.map (fun o =>
        { toOrderError := o, sourceFile := r.fileName })) := by
  cases results with
  | nil => rfl
  | cons r rs => simp [allOrders]

/-- C6: over outcomes that carry a final status (success or error) and
whose error outcomes hold no orders — exactly what the batch handler
produces — `allOrders` is the in-order concatenation of the success
outcomes' orders, each tagged with its source file name. -/
theorem claim6_allRecords_from_success (results : List ExtractedFileResult)
    (hstatus : results.all
      (fun r => r.status != FileStatus.processing) = true)
    (herr : results.all
      (fun r => r.status != FileStatus.error || r.orders.isEmpty) = true) :
    allOrders results
      = (results.filter (fun r => r.status == FileStatus.success)).flatMap
          (fun r => r.orders.map (fun o =>
            { toOrderError := o, sourceFile := r.fileName })) := by
  rw [allOrders_eq_flatMap]
  induction results with
  | nil => rfl
  | cons r rs ih =>
      simp only [List.all_cons, Bool.and_eq_true] at hstatus herr
      rw [List.flatMap_cons, List.filter_cons]
      cases hs : r.status with
      | processing =>
          exfalso
          have := hstatus.1
          rw [hs] at this
          simp at this
      | success =>
          rw [ih hstatus.2 herr.2]
          simp
      | error =>
          have hord : r.orders = [] := by
            have := herr.1
            rw [hs] at this
            simpa [List.isEmpty_iff] using this
          rw [ih hstatus.2 herr.2]
          simp [hord]

/-- Two sample outcomes as the handler would produce them: `b.pdf`
succeeded with one order, `a.pdf` failed. -/
def sampleResults : List ExtractedFileResult :=
  [ { fileName := "b.pdf", status := FileStatus.success,
      orders := [sampleOrder] },
    { fileName := "a.pdf", status := FileStatus.error, orders := [],
      errorMessage := some "Falha ao processar PDF" } ]

theorem claim6_witness :
    (sampleResults.all
      (fun r => r.status != FileStatus.processing) = true) ∧
    (sampleResults.all
      (fun r => r.status != FileStatus.error || r.orders.isEmpty) = true) ∧
    allOrders sampleResults
      = (sampleResults.filter
          (fun r => r.status == FileStatus.success)).flatMap
          (fun r => r.orders.map (fun o =>
            { toOrderError := o, sourceFile := r.fileName })) := by
  refine ⟨by decide, by decide, ?_⟩
  exact claim6_allRecords_from_success sampleResults (by decide) (by decide)

/-- The sum of the `total` column over all crosstab rows. -/
def sumTotals (stats : List (String × RestaurantStats)) : Nat :=
  (stats.map (fun row => row.2.total)).sum

theorem hasKey_append_single {β : Type} (m : List (String × β))
    (k r : String) (v : β) :
    hasKey (m ++ [(k, v)]) r = (hasKey m r || (k == r)) := by
  simp [hasKey, List.any_append]

theorem hasKey_modifyRow {β : Type} (m : List (String × β)) (k r : String)
    (f : β → β) :
    hasKey (modifyRow m k f) r = hasKey m r := by
  induction m with
  | nil => rfl
  | cons p rest ih =>
      rcases p with ⟨k2, v⟩
      by_cases h : k2 = k
      · simp [modifyRow, h, hasKey]
      · simp only [modifyRow, if_neg h]
        simp only [hasKey, List.any_cons] at ih ⊢
        rw [ih]

theorem sumTotals_modifyRow (stats : List (String × RestaurantStats))
    (k : String) (f : RestaurantStats → RestaurantStats)
    (hf : ∀ r, (f r).total = r.total + 1)
    (hk : hasKey stats k = true) :
    sumTotals (modifyRow stats k f) = sumTotals stats + 1 := by
  induction stats with
  | nil => simp [hasKey] at hk
  | cons p rest ih =>
      rcases p with ⟨k2, v⟩
      by_cases h : k2 = k
      · simp only [modifyRow, if_pos h, sumTotals, List.map_cons,
          List.sum_cons, hf]
        omega
      · have hk2 : hasKey rest k = true := by
          simp only [hasKey, List.any_cons, Bool.or_eq_true,
            beq_iff_eq] at hk
          rcases hk with h1 | h1
          · exact absurd h1 h
          · exact h1
        simp only [modifyRow, if_neg h, sumTotals, List.map_cons,
          List.sum_cons] at ih ⊢
        rw [ih hk2]
        omega

theorem sumTotals_addOrder (plats : List String)
    (stats : List (String × RestaurantStats)) (o : TaggedOrder) :
    sumTotals (addOrder plats stats o) = sumTotals stats + 1 := by
  unfold addOrder
  by_cases h : hasKey stats o.restaurantName = true
  · simp only [h, if_true]
    exact sumTotals_modifyRow stats o.restaurantName _ (fun r => rfl) h
  · simp only [h, if_false, Bool.false_eq_true]
    have hk : hasKey (stats ++ [(o.restaurantName, initRow plats)])
        o.restaurantName = true := by
      rw [hasKey_append_single]
      simp
    rw [sumTotals_modifyRow _ o.restaurantName _ (fun r => rfl) hk]
    simp [sumTotals, initRow]

theorem sumTotals_foldl (plats : List String) (orders : List TaggedOrder) :
    ∀ init, sumTotals (orders.foldl (addOrder plats) init)
      = sumTotals init + orders.length := by
  induction orders with
  | nil => intro init; simp
  | cons o os ih =>
      intro init
      rw [List.foldl_cons, ih, sumTotals_addOrder]
      simp only [List.length_cons]
      omega

/-- C4: over every list of outcomes and every selection, the crosstab row
totals sum to the number of filtered records. -/
theorem claim4_crosstab_totals (sel : List String)
    (results : List ExtractedFileResult) :
    sumTotals (summaryStats sel results).1
      = (filteredOrders sel (allOrders results)).length := by
  simp only [summaryStats, summaryStatsTable]
  rw [sumTotals_foldl]
  simp [sumTotals]

theorem hasKey_addOrder (plats : List String)
    (stats : List (String × RestaurantStats)) (o : TaggedOrder)
    (r : String) :
    hasKey (addOrder plats stats o) r
      = (hasKey stats r || (o.restaurantName == r)) := by
  unfold addOrder
  by_cases h : hasKey stats o.restaurantName = true
  · simp only [h, if_true]
    rw [hasKey_modifyRow]
    by_cases hr : o.restaurantName = r
    · subst hr
      simp [h]
    · simp [hr]
  · simp only [h, if_false, Bool.false_eq_true]
    rw [hasKey_modifyRow, hasKey_append_single]

theorem hasKey_foldl (plats : List String) (orders : List TaggedOrder) :
    ∀ (init : List (String × RestaurantStats)) (r : String),
      hasKey (orders.foldl (addOrder plats) init) r
        = (hasKey init r
            || (orders.map (fun o => o.restaurantName)).contains r) := by
  induction orders with
  | nil => intro init r; simp
  | cons o os ih =>
      intro init r
      rw [List.foldl_cons, ih, hasKey_addOrder]
      simp only [List.map_cons, List.contains_cons]
      have hcomm : (o.restaurantName == r) = (r == o.restaurantName) := by
        by_cases h : o.restaurantName = r
        · subst h; rfl
        · have h1 : (o.restaurantName == r) = false := by simpa using h
          have h2 : (r == o.restaurantName) = false := by
            simpa using (Ne.symm h)
          rw [h1, h2]
      rw [hcomm, Bool.or_assoc]

/-- C7: the crosstab has a row for restaurant `r` exactly when some
filtered record carries that restaurant name — rows are built only from
records actually present, never pre-seeded. -/
theorem claim7_crosstab_rows (sel : List String)
    (results : List ExtractedFileResult) (r : String) :
    hasKey (summaryStats sel results).1 r
      = ((filteredOrders sel (allOrders results)).map
          (fun o => o.restaurantName)).contains r := by
  simp only [summaryStats, summaryStatsTable]
  rw [hasKey_foldl]
  simp [hasKey]

theorem mem_dedupFirst (l : List String) (x : String) :
    x ∈ dedupFirst l ↔ x ∈ l := by
  induction l using dedupFirst.induct with
  | case1 => simp [dedupFirst]
  | case2 y ys ih =>
      rw [dedupFirst]
      by_cases h : x = y
      · subst h; simp
      · simp only [List.mem_cons, ih, List.mem_filter, h, false_or]
        constructor
        · intro hx; exact hx.1
        · intro hx
          refine ⟨hx, ?_⟩
          simpa using h

theorem nodup_dedupFirst (l : List String) : (dedupFirst l).Nodup := by
  induction l using dedupFirst.induct with
  | case1 => simp [dedupFirst]
  | case2 y ys ih =>
      rw [dedupFirst]
      refine List.nodup_cons.mpr ⟨?_, ih⟩
      intro hy
      rw [mem_dedupFirst] at hy
      rcases List.mem_filter.mp hy with ⟨_, hne⟩
      simp at hne

theorem platLe_trans (a b c : String) (hab : platLe a b = true)
    (hbc : platLe b c = true) : platLe a c = true := by
  unfold platLe at hab hbc ⊢
  cases ha : platformPriority.indexOf? a <;>
    cases hb : platformPriority.indexOf? b <;>
    cases hc : platformPriority.indexOf? c <;>
    rw [ha, hb] at hab <;> rw [hb, hc] at hbc <;> simp_all
  · exact le_trans hab hbc
  · exact Nat.le_trans hab hbc

theorem platLe_total (a b : String) : (platLe a b || platLe b a) = true := by
  unfold platLe
  cases ha : platformPriority.indexOf? a <;>
    cases hb : platformPriority.indexOf? b <;> simp
  · exact le_total a.data b.data
  · exact Nat.le_total _ _

/-- Three sample records whose platform set is
`{"Bolt", "Uber Eats", "Glovo"}`. -/
def sampleThreePlatformOrders : List TaggedOrder :=
  [ { orderNumber := "B1", restaurantName := "Miraflores",
      date := "2026-01-14", time := "10:00", customerName := "Ana",
      platform := "Bolt", sourceFile := "b.pdf" },
    { orderNumber := "U1", restaurantName := "Alfragide",
      date := "2026-01-14", time := "11:00", customerName := "Rui",
      platform := "Uber Eats", sourceFile := "b.pdf" },
    { orderNumber := "G1", restaurantName := "Amoreiras",
      date := "2026-01-14", time := "12:00", customerName := "N/A",
      platform := "Glovo", sourceFile := "b.pdf" } ]

/-- C5: the platform list of the current view is the distinct platforms of
the filtered records (no duplicates, membership matches occurrence),
ordered by the priority comparator — priority platforms Uber Eats, Glovo,
Bolt first in that order, any others after them in string order; in
particular records with platforms Bolt, Uber Eats, Glovo yield exactly
`["Uber Eats", "Glovo", "Bolt"]`. -/
theorem claim5_platforms_in_view (orders : List TaggedOrder) :
    (sortedPlatforms orders).Nodup ∧
    (∀ p : String, p ∈ sortedPlatforms orders ↔
      p ∈ orders.map (fun o => o.platform)) ∧
    (sortedPlatforms orders).Pairwise (fun a b => platLe a b = true) ∧
    sortedPlatforms sampleThreePlatformOrders
      = ["Uber Eats", "Glovo", "Bolt"] := by
  refine ⟨?_, ?_, ?_, ?_⟩
  · exact (List.mergeSort_perm _ platLe).nodup_iff.mpr
      (nodup_dedupFirst _)
  · intro p
    rw [sortedPlatforms,
      (List.mergeSort_perm (dedupFirst (orders.map (fun o => o.platform)))
        platLe).mem_iff,
      mem_dedupFirst]
  · exact List.sorted_mergeSort platLe_trans platLe_total _
  · simp +decide [sortedPlatforms, sampleThreePlatformOrders, dedupFirst,
      List.mergeSort, List.merge]
